import Mathlib

/-!
Verification of `domainer.py` (repository `klppl/domainerSE`).

This file shallowly embeds the program's pure logic: the feed parser
(`parse_file_content` with Python `strptime('%Y-%m-%d')` date parsing),
the sorter (`sorted(entries, key=lambda x: x[1])`), the cache writer
(`save_to_file` with rows `f"{domain}, {date}"`), the cache reader
(`load_sorted_entries`), the date filter (`get_available_domains`),
the advisory call (`analyze_domains_with_chatgpt`), and the control
flow of `main`.

Modelling conventions:
* Python strings are `List Char`; digits are modelled as ASCII digits
  (the embedding does not model exotic Unicode decimal digits, which
  CPython's `re` module would also accept in `\d`).
* Dates are triples of naturals; `datetime.strptime(s, '%Y-%m-%d')`
  is modelled faithfully after CPython's `_strptime` regex
  `(?P<Y>\d\d\d\d)-(?P<m>1[0-2]|0[1-9]|[1-9])-(?P<d>3[01]|[12]\d|0[1-9]|[1-9])`
  followed by the whole-string check and calendar validation performed
  by the `datetime` constructor (month lengths, Gregorian leap years,
  year at least 1).
* File contents are `List Char`; reading a text file line by line is
  modelled by universal-newline splitting; a file's lines exclude the
  line terminators (the code strips every loaded line anyway).
* Network and file-system effects are inputs of the model: the result
  of `requests.get` is an `Option` of the already line-split body, the
  cache file is an `Option (List Char)` (`none` = file absent), and the
  OpenAI chat-completion call is an `ApiOutcome` parameter.
* `sys.exit(msg)`, printed warnings, written files and an uncaught
  exception are recorded in an explicit `RunEffects` record.
-/

/-- A domain name, as a Python string. -/
abbrev Domain := List Char

/-- A calendar date as produced by `datetime.strptime(...).date()`. -/
structure Date where
  year : Nat
  month : Nat
  day : Nat
deriving DecidableEq

/-- A parsed `(domain, date)` record. -/
abbrev Record := Domain × Date

/-- Numeric value of an ASCII digit character. -/
def digitVal (c : Char) : Nat := c.toNat - 48

/-- ASCII digit test (the `\d` of the strptime regex, restricted to ASCII). -/
def isDigitChar (c : Char) : Bool := decide (48 ≤ c.toNat ∧ c.toNat ≤ 57)

/-- The ASCII digit character for a value below ten (as printed by Python). -/
def digitChar : Nat → Char
  | 0 => '0'
  | 1 => '1'
  | 2 => '2'
  | 3 => '3'
  | 4 => '4'
  | 5 => '5'
  | 6 => '6'
  | 7 => '7'
  | 8 => '8'
  | _ => '9'

/-- Value of a list of ASCII digit characters, most significant first. -/
def natOfDigits (cs : List Char) : Nat := cs.foldl (fun n c => n * 10 + digitVal c) 0

/-- Gregorian leap-year rule used by Python's `datetime`. -/
def leapYear (y : Nat) : Bool := decide (y % 4 = 0 ∧ (y % 100 ≠ 0 ∨ y % 400 = 0))

/-- Number of days of a month, as validated by Python's `datetime` constructor. -/
def daysInMonth (y m : Nat) : Nat :=
  if m = 2 then (if leapYear y then 29 else 28)
  else if m = 4 ∨ m = 6 ∨ m = 9 ∨ m = 11 then 30
  else 31

/-- The `%Y` part of the strptime regex: exactly four digits. -/
def yearSplit : List Char → Option (Nat × List Char)
  | a :: b :: c :: d :: rest =>
    if isDigitChar a ∧ isDigitChar b ∧ isDigitChar c ∧ isDigitChar d then
      some (((digitVal a * 10 + digitVal b) * 10 + digitVal c) * 10 + digitVal d, rest)
    else none
  | _ => none

/-- The `%m` part of the strptime regex: `1[0-2]|0[1-9]|[1-9]`, tried in
order with the one-digit alternative last, exactly as CPython's regex does. -/
def monthSplit : List Char → Option (Nat × List Char)
  | a :: b :: rest =>
    if a.toNat = 49 ∧ (b.toNat = 48 ∨ b.toNat = 49 ∨ b.toNat = 50) then
      some (10 + digitVal b, rest)
    else if a.toNat = 48 ∧ 49 ≤ b.toNat ∧ b.toNat ≤ 57 then
      some (digitVal b, rest)
    else if 49 ≤ a.toNat ∧ a.toNat ≤ 57 then
      some (digitVal a, b :: rest)
    else none
  | [a] => if 49 ≤ a.toNat ∧ a.toNat ≤ 57 then some (digitVal a, []) else none
  | [] => none

/-- The `%d` part of the strptime regex: `3[01]|[12]\d|0[1-9]|[1-9]`. -/
def daySplit : List Char → Option (Nat × List Char)
  | a :: b :: rest =>
    if a.toNat = 51 ∧ (b.toNat = 48 ∨ b.toNat = 49) then
      some (30 + digitVal b, rest)
    else if (a.toNat = 49 ∨ a.toNat = 50) ∧ 48 ≤ b.toNat ∧ b.toNat ≤ 57 then
      some (digitVal a * 10 + digitVal b, rest)
    else if a.toNat = 48 ∧ 49 ≤ b.toNat ∧ b.toNat ≤ 57 then
      some (digitVal b, rest)
    else if 49 ≤ a.toNat ∧ a.toNat ≤ 57 then
      some (digitVal a, b :: rest)
    else none
  | [a] => if 49 ≤ a.toNat ∧ a.toNat ≤ 57 then some (digitVal a, []) else none
  | [] => none

/-- Model of `datetime.strptime(s, '%Y-%m-%d').date()`: the strptime regex applied to
the whole string (no unconverted data may remain), then calendar validation. -/
def parseDate (cs : List Char) : Option Date :=
  match yearSplit cs with
  | some (y, r1) =>
    match r1 with
    | c1 :: r2 =>
      if c1 = '-' then
        match monthSplit r2 with
        | some (m, r3) =>
          match r3 with
          | c2 :: r4 =>
            if c2 = '-' then
              match daySplit r4 with
              | some (d, r5) =>
                if r5 = [] ∧ 1 ≤ y ∧ d ≤ daysInMonth y m then some ⟨y, m, d⟩ else none
              | none => none
            else none
          | [] => none
        | none => none
      else none
    | [] => none
  | none => none

/-- Python `line.split('\t')`. -/
def splitTab : List Char → List (List Char)
  | [] => [[]]
  | c :: rest =>
    if c = '\t' then [] :: splitTab rest
    else
      match splitTab rest with
      | t :: ts => (c :: t) :: ts
      | [] => [[c]]

/-- One iteration of the loop of `parse_file_content`: split the line on the
tab character, require exactly two fields, parse the date field; `none` means
the line is skipped with a printed warning. -/
def parseLine (line : List Char) : Option Record :=
  match splitTab line with
  | [dm, ds] =>
    match parseDate ds with
    | some d => some (dm, d)
    | none => none
  | _ => none

/-- Model of `parse_file_content`, applied to the line list produced by
`content.strip().splitlines()` (the caller supplies the lines). -/
def parse_file_content (lines : List (List Char)) : List Record :=
  lines.filterMap parseLine

/-- Number of skipped-line warnings printed by `parse_file_content`:
each line prints exactly one warning iff it yields no record. -/
def parse_warnings (lines : List (List Char)) : Nat :=
  lines.countP (fun l => (parseLine l).isNone)

/-- Comparison of Python `date` objects: lexicographic on (year, month, day). -/
def dateLe (a b : Date) : Bool :=
  decide (a.year < b.year ∨ (a.year = b.year ∧
    (a.month < b.month ∨ (a.month = b.month ∧ a.day ≤ b.day))))

/-- Key-based comparison used by `sorted(entries, key=lambda x: x[1])`. -/
def entryLe (a b : Record) : Bool := dateLe a.2 b.2

/-- Model of `sort_entries_by_date`; Python's `sorted` is a stable sort ordering by the
key, so it is modelled by the stable `List.mergeSort` on the key order. -/
def sort_entries_by_date (entries : List Record) : List Record :=
  entries.mergeSort entryLe

/-- Model of `get_available_domains`: the list comprehension
`[domain for domain, date in entries if date == target_date]`. -/
def get_available_domains : List Record → Date → List Domain
  | [], _ => []
  | e :: rest, target =>
    if e.2 = target then e.1 :: get_available_domains rest target
    else get_available_domains rest target

/-- Two-digit zero-padded rendering, as in Python `str(date)` for month/day. -/
def pad2 (n : Nat) : List Char := [digitChar (n / 10), digitChar (n % 10)]

/-- Four-digit zero-padded rendering, as in Python `str(date)` for the year. -/
def pad4 (n : Nat) : List Char :=
  [digitChar (n / 1000), digitChar (n / 100 % 10), digitChar (n / 10 % 10), digitChar (n % 10)]

/-- Python `str(date)`: ISO `YYYY-MM-DD`. -/
def dateToChars (d : Date) : List Char :=
  pad4 d.year ++ '-' :: pad2 d.month ++ '-' :: pad2 d.day

/-- The rows written by `main`: `f"{domain}, {date}"` for each entry. -/
def cache_rows (entries : List Record) : List (List Char) :=
  entries.map (fun e => e.1 ++ ',' :: ' ' :: dateToChars e.2)

/-- Model of the writelines loop of `save_to_file`: each row is written
followed by a newline. -/
def rowsJoin : List (List Char) → List Char
  | [] => []
  | r :: rest => r ++ '\n' :: rowsJoin rest

/-- The file content produced by `save_to_file(filename, header, rows)`:
the header line followed by one line per row. -/
def save_file_content (header : List Char) (rows : List (List Char)) : List Char :=
  header ++ '\n' :: rowsJoin rows

/-- The cache header written by `main`. -/
def headerChars : List Char := "domain, date".toList

/-- Python `str.isspace` characters (the set stripped by `str.strip()`). -/
def pyIsSpace (c : Char) : Bool :=
  decide ((9 ≤ c.toNat ∧ c.toNat ≤ 13) ∨ (28 ≤ c.toNat ∧ c.toNat ≤ 31) ∨
    c.toNat = 32 ∨ c.toNat = 133 ∨ c.toNat = 160 ∨ c.toNat = 5760 ∨
    (8192 ≤ c.toNat ∧ c.toNat ≤ 8202) ∨ c.toNat = 8232 ∨ c.toNat = 8233 ∨
    c.toNat = 8239 ∨ c.toNat = 8287 ∨ c.toNat = 12288)

/-- Python `line.strip()`. -/
def pyStrip (cs : List Char) : List Char :=
  ((cs.dropWhile pyIsSpace).reverse.dropWhile pyIsSpace).reverse

/-- Python `line.split(', ')`: split on the two-character separator,
scanning occurrences left to right without overlap. -/
def splitSep : List Char → List (List Char)
  | [] => [[]]
  | [c] => [[c]]
  | c :: c2 :: rest =>
    if c = ',' ∧ c2 = ' ' then [] :: splitSep rest
    else
      match splitSep (c2 :: rest) with
      | t :: ts => (c :: t) :: ts
      | [] => [[c]]

/-- Whether a string contains the substring `", "`. -/
def hasSep : List Char → Bool
  | c :: c2 :: rest => (decide (c = ',') && decide (c2 = ' ')) || hasSep (c2 :: rest)
  | _ => false

/-- Universal-newline splitting of raw file content (`\r\n`, `\r` and `\n`
all terminate a line, as in Python text-mode reading). -/
def lineSplit : List Char → List (List Char)
  | [] => [[]]
  | '\r' :: '\n' :: rest => [] :: lineSplit rest
  | '\r' :: rest => [] :: lineSplit rest
  | '\n' :: rest => [] :: lineSplit rest
  | c :: rest =>
    match lineSplit rest with
    | t :: ts => (c :: t) :: ts
    | [] => [[c]]

/-- The sequence of lines yielded by iterating over an open text file:
line terminators are split on and a trailing empty fragment is not a line
(an empty file yields no lines at all). -/
def fileLines (cs : List Char) : List (List Char) :=
  if cs = [] then []
  else
    let ls := lineSplit cs
    if ls.getLast? = some [] then ls.dropLast else ls

/-- The one exception `load_sorted_entries` can leak: `next(file)` on a file
with no lines raises `StopIteration`, which none of its handlers catch. -/
inductive PyExc where
  | stopIteration
deriving DecidableEq

deriving instance DecidableEq for Except

/-- One iteration of the loop of `load_sorted_entries`: strip the line,
split on `', '`, require exactly two fields, parse the date field. -/
def loadLine (line : List Char) : Option Record :=
  match splitSep (pyStrip line) with
  | [dm, ds] =>
    match parseDate ds with
    | some d => some (dm, d)
    | none => none
  | _ => none

/-- Model of `load_sorted_entries` on the content of an existing readable file:
`next(file)` skips the header line but raises `StopIteration` on a file
with no lines; every further line yields a record or is skipped. -/
def load_sorted_entries (content : List Char) : Except PyExc (List Record) :=
  match fileLines content with
  | [] => .error PyExc.stopIteration
  | _ :: rest => .ok (rest.filterMap loadLine)

/-- The `sys.exit` message of `download_and_process_data` when the download
fails. -/
def noDownloadMsg : List Char := "Error: Unable to download data.".toList

/-- The `sys.exit` message of `download_and_process_data` when no valid
entries were parsed. -/
def noValidEntriesMsg : List Char := "Error: No valid entries found.".toList

/-- Model of `download_and_process_data`: the download result is an input (`none` for
a failed request); `.error` is a `sys.exit` with the given message. -/
def download_and_process_data (download : Option (List (List Char))) :
    Except (List Char) (List Record) :=
  match download with
  | none => .error noDownloadMsg
  | some lines =>
    let entries := parse_file_content lines
    if entries = [] then .error noValidEntriesMsg
    else .ok (sort_entries_by_date entries)

/-- Outcome of the `client.chat.completions.create` network call, an input of
the model: success, an `OpenAIError` (authentication, quota, transport), or
any other exception. -/
inductive ApiOutcome where
  | success (text : List Char)
  | openaiError (msg : List Char)
  | otherError (msg : List Char)
deriving DecidableEq

/-- Result of `analyze_domains_with_chatgpt`: either a returned string
(recording whether the network call was made) or an uncaught exception. -/
inductive AdvisoryResult where
  | returned (text : List Char) (networkCalled : Bool)
  | raised (msg : List Char)
deriving DecidableEq

/-- The fixed string returned for an empty domain list. -/
def noDomainsMsg : List Char := "No domains provided for analysis.".toList

/-- The `OpenAIError` message raised by the `OpenAI(api_key=None)` client
constructor, outside the function's try block. -/
def apiKeyErrMsg : List Char :=
  "The api_key client option must be set either by passing api_key to the client or by setting the OPENAI_API_KEY environment variable".toList

/-- Model of `analyze_domains_with_chatgpt`: the empty-list check comes first; then the
client constructor raises when no API key is configured (this happens before
the try block); then the call's failures are caught and turned into strings,
and a successful response body is stripped. -/
def analyze_domains_with_chatgpt (domains : List Domain) (apiKey : Option (List Char))
    (call : ApiOutcome) : AdvisoryResult :=
  if domains = [] then .returned noDomainsMsg false
  else
    match apiKey with
    | none => .raised apiKeyErrMsg
    | some _ =>
      match call with
      | .success t => .returned (pyStrip t) true
      | .openaiError e => .returned ("OpenAI API Error: ".toList ++ e) true
      | .otherError e => .returned ("Unexpected Error: ".toList ++ e) true

/-- Observable effects of one run of `main`. -/
structure RunEffects where
  exitMsg : Option (List Char)
  raised : Bool
  savedCache : Bool
  wroteAvailable : Option (List Domain)
  printedNoDomains : Bool
  advisoryInvoked : Bool
  networkCalled : Bool
  displayedAnalysis : Option (List Char)
deriving DecidableEq

/-- The `sys.exit` message of `main` for an invalid `--date` argument. -/
def invalidDateMsg : List Char := "Error: Invalid date format. Use YYYY-MM-DD.".toList

/-- The second half of `main`, after `sorted_entries` is available: parse the
`--date` argument, filter, write the dated output file, optionally run the
advisory step. -/
def main_filter_phase (entries : List Record) (saved : Bool) (dateArg : Option (List Char))
    (chatFlag : Bool) (apiKey : Option (List Char)) (call : ApiOutcome) : RunEffects :=
  match dateArg with
  | none => ⟨none, false, saved, none, false, false, false, none⟩
  | some ds =>
    match parseDate ds with
    | none => ⟨some invalidDateMsg, false, saved, none, false, false, false, none⟩
    | some target =>
      let available := get_available_domains entries target
      if available = [] then ⟨none, false, saved, none, true, false, false, none⟩
      else
        if chatFlag then
          match analyze_domains_with_chatgpt available apiKey call with
          | .raised _ => ⟨none, true, saved, some available, false, true, false, none⟩
          | .returned text net =>
            ⟨none, false, saved, some available, false, true, net, some text⟩
        else ⟨none, false, saved, some available, false, false, false, none⟩

/-- Model of `main`: when the cache file is absent, download/parse/sort and save the
cache; when it is present, load it (which may raise on an empty file); then
run the filter phase. -/
def main_run (cache : Option (List Char)) (download : Option (List (List Char)))
    (dateArg : Option (List Char)) (chatFlag : Bool) (apiKey : Option (List Char))
    (call : ApiOutcome) : RunEffects :=
  match cache with
  | none =>
    match download_and_process_data download with
    | .error msg => ⟨some msg, false, false, none, false, false, false, none⟩
    | .ok entries => main_filter_phase entries true dateArg chatFlag apiKey call
  | some content =>
    match load_sorted_entries content with
    | .error _ => ⟨none, true, false, none, false, false, false, none⟩
    | .ok entries => main_filter_phase entries false dateArg chatFlag apiKey call

/-- The date pattern exactly as claim C5 words it: four-digit year, two-digit
month and two-digit day separated by hyphens. -/
def strictDatePat : List Char → Bool
  | [y1, y2, y3, y4, h1, m1, m2, h2, d1, d2] =>
    isDigitChar y1 && isDigitChar y2 && isDigitChar y3 && isDigitChar y4 &&
    decide (h1 = '-') && isDigitChar m1 && isDigitChar m2 &&
    decide (h2 = '-') && isDigitChar d1 && isDigitChar d2
  | _ => false

/-- Split on the hyphen character (used only to state the amended C5 rule). -/
def splitDash : List Char → List (List Char)
  | [] => [[]]
  | c :: rest =>
    if c = '-' then [] :: splitDash rest
    else
      match splitDash rest with
      | t :: ts => (c :: t) :: ts
      | [] => [[c]]

/-- Joining inverse of `splitDash`. -/
def partsJoin : List (List Char) → List Char
  | [] => []
  | [p] => p
  | p :: ps => p ++ '-' :: partsJoin ps

/-- The date rule the code actually enforces, stated from the amended claim's
words: a four-digit year part, a one-or-two-digit month part and a
one-or-two-digit day part separated by hyphens, all digits, denoting a valid
calendar date (year at least 1, month 1..12, day between 1 and the number of
days of that month). -/
def matchesActualDateRule (cs : List Char) : Bool :=
  match splitDash cs with
  | [ys, ms, ds] =>
    decide (ys.length = 4) && ys.all isDigitChar &&
    (decide (ms.length = 1) || decide (ms.length = 2)) && ms.all isDigitChar &&
    (decide (ds.length = 1) || decide (ds.length = 2)) && ds.all isDigitChar &&
    decide (1 ≤ natOfDigits ys) &&
    decide (1 ≤ natOfDigits ms) && decide (natOfDigits ms ≤ 12) &&
    decide (1 ≤ natOfDigits ds) &&
    decide (natOfDigits ds ≤ daysInMonth (natOfDigits ys) (natOfDigits ms))
  | _ => false

/-- Domains whose cache row survives the load transformation unchanged: no
line-break characters, no `", "` substring, no leading whitespace. -/
def goodDomainB (dm : Domain) : Bool :=
  !(hasSep dm) && !(dm.any (fun c => decide (c = '\n') || decide (c = '\r'))) &&
    (match dm with
     | [] => true
     | c :: _ => !(pyIsSpace c))

/-- Valid Python `date` field values. -/
def validDateB (d : Date) : Bool :=
  decide (1 ≤ d.year ∧ d.year ≤ 9999 ∧ 1 ≤ d.month ∧ d.month ≤ 12 ∧
    1 ≤ d.day ∧ d.day ≤ daysInMonth d.year d.month)

/-- Whether a record list is sorted ascending by date. -/
def sortedByDateB : List Record → Bool
  | [] => true
  | [_] => true
  | a :: b :: rest => entryLe a b && sortedByDateB (b :: rest)

/-! ## Theorems -/

/-- Claim C3: for every input text given to the feed parser, the number of
Records it outputs plus the number of skipped-line warnings it prints equals
the number of input lines. -/
theorem c3_parse_total (lines : List (List Char)) :
    (parse_file_content lines).length + parse_warnings lines = lines.length := by
  induction lines with
  | nil => rfl
  | cons l rest ih =>
    unfold parse_file_content parse_warnings at ih ⊢
    rw [List.filterMap_cons, List.countP_cons]
    cases h : parseLine l <;> simp [h] <;> omega

/-- Claim C2: for every list of records and every target date, a domain is in
the output of `get_available_domains` iff some record pairs it with exactly
the target date, and the output is the input order restricted to the matching
records (with multiplicity), i.e. the matching records' domains in order. -/
theorem c2_filter_correct (entries : List Record) (target : Date) :
    (∀ dm, dm ∈ get_available_domains entries target ↔ (dm, target) ∈ entries) ∧
    get_available_domains entries target =
      (entries.filter (fun e => decide (e.2 = target))).map Prod.fst := by
  induction entries with
  | nil => simp [get_available_domains]
  | cons e rest ih =>
    obtain ⟨edm, edt⟩ := e
    obtain ⟨ih1, ih2⟩ := ih
    by_cases h : edt = target
    · subst h
      constructor
      · intro dm
        simp [get_available_domains, ih1 dm]
      · simp [get_available_domains, List.filter_cons, ih2]
    · constructor
      · intro dm
        have : ¬((dm, target) = (edm, edt)) := by
          intro hc
          exact h (congrArg Prod.snd hc).symm
        simp [get_available_domains, h, ih1 dm, this]
      · simp [get_available_domains, List.filter_cons, h, ih2]

/-- Claim C10: called with an empty domain list, the advisory operation
returns the fixed string and makes no network call (regardless of the API key
and of what the service would have answered). -/
theorem c10_empty_domains_fixed (apiKey : Option (List Char)) (call : ApiOutcome) :
    analyze_domains_with_chatgpt [] apiKey call =
      .returned ("No domains provided for analysis.".toList) false := rfl

/-- Claim C7 (code bug exhibit): on an existing but completely empty cache
file, `load_sorted_entries` does not return a list: `next(file)` raises
`StopIteration`, which no handler in the function catches, so the exception
propagates out of the load operation. -/
theorem c7_empty_file_raises :
    load_sorted_entries [] = .error PyExc.stopIteration := rfl

/-- The record comparison is transitive. -/
theorem entryLe_trans : ∀ (a b c : Record), entryLe a b → entryLe b c → entryLe a c := by
  intro a b c
  simp only [entryLe, dateLe, decide_eq_true_eq]
  omega

/-- The record comparison is total. -/
theorem entryLe_total : ∀ (a b : Record), entryLe a b || entryLe b a := by
  intro a b
  simp only [entryLe, dateLe, Bool.or_eq_true, decide_eq_true_eq]
  omega

/-- Stability of `sort_entries_by_date`: the subsequence of records carrying
any fixed date is unchanged by the sort. -/
theorem sort_stable_filter (l : List Record) (d : Date) :
    (sort_entries_by_date l).filter (fun e => decide (e.2 = d)) =
      l.filter (fun e => decide (e.2 = d)) := by
  induction l with
  | nil => simp [sort_entries_by_date]
  | cons a l ih =>
    obtain ⟨l1, l2, h1, h2, h3⟩ := List.mergeSort_cons entryLe_trans entryLe_total a l
    simp only [sort_entries_by_date] at ih ⊢
    rw [h1, List.filter_append, List.filter_cons]
    rw [h2, List.filter_append] at ih
    have hl1 : a.2 = d → l1.filter (fun e => decide (e.2 = d)) = [] := by
      intro hd
      rw [List.filter_eq_nil_iff]
      intro b hb
      have h3b := h3 b hb
      simp only [Bool.not_eq_true'] at h3b
      simp only [decide_eq_true_eq]
      intro hbd
      have hle : entryLe a b = true := by
        simp [entryLe, dateLe, hd, hbd]
      rw [hle] at h3b
      cases h3b
    by_cases hd : a.2 = d
    · rw [hl1 hd] at ih ⊢
      simp only [List.nil_append] at ih ⊢
      simp [List.filter_cons, hd, ih]
    · simp only [decide_eq_true_eq, hd] at ih ⊢
      simp [List.filter_cons, hd, ih]

/-- Claim C4: sorting by date is idempotent, stable for equal dates (the
subsequence of records with any given date is preserved), a permutation of
the input, and sorted ascending by date. -/
theorem c4_sort_props (l : List Record) :
    sort_entries_by_date (sort_entries_by_date l) = sort_entries_by_date l ∧
    (∀ d : Date, (sort_entries_by_date l).filter (fun e => decide (e.2 = d)) =
      l.filter (fun e => decide (e.2 = d))) ∧
    List.Perm (sort_entries_by_date l) l ∧
    (sort_entries_by_date l).Pairwise (fun a b => dateLe a.2 b.2 = true) := by
  refine ⟨?_, fun d => sort_stable_filter l d, ?_, ?_⟩
  · simp only [sort_entries_by_date]
    exact List.mergeSort_of_sorted (List.sorted_mergeSort entryLe_trans entryLe_total l)
  · exact List.mergeSort_perm l entryLe
  · have h := List.sorted_mergeSort entryLe_trans entryLe_total l
    rw [sort_entries_by_date]
    exact h.imp (fun hab => hab)

/-- The function `digitChar` always yields an ASCII digit. -/
theorem digitChar_isDigit (k : Nat) : isDigitChar (digitChar k) = true := by
  unfold digitChar
  split <;> decide

/-- The function `digitChar` inverts `digitVal` on one-digit values. -/
theorem digitVal_digitChar (k : Nat) (h : k < 10) : digitVal (digitChar k) = k := by
  interval_cases k <;> decide

/-- ASCII digits are not separators, not whitespace and not line breaks. -/
theorem digit_char_facts (x : Char) (h : isDigitChar x = true) :
    pyIsSpace x = false ∧ x ≠ ',' ∧ x ≠ '-' ∧ x ≠ '\n' ∧ x ≠ '\r' ∧ x ≠ '\t' := by
  simp only [isDigitChar, decide_eq_true_eq] at h
  refine ⟨?_, ?_, ?_, ?_, ?_, ?_⟩
  · simp only [pyIsSpace, decide_eq_false_iff_not]
    omega
  all_goals intro hc; subst hc; revert h; decide

/-- Evaluation of `natOfDigits` on a one-element list. -/
theorem natOfDigits_one (a : Char) : natOfDigits [a] = digitVal a := by
  simp [natOfDigits]

/-- Evaluation of `natOfDigits` on a two-element list. -/
theorem natOfDigits_two (a b : Char) :
    natOfDigits [a, b] = digitVal a * 10 + digitVal b := by
  simp [natOfDigits]

/-- Evaluation of `natOfDigits` on a four-element list. -/
theorem natOfDigits_four (a b c d : Char) :
    natOfDigits [a, b, c, d] =
      ((digitVal a * 10 + digitVal b) * 10 + digitVal c) * 10 + digitVal d := by
  simp [natOfDigits]

/-- The year matcher succeeds on four leading digits. -/
theorem yearSplit_eq (a b c d : Char) (r : List Char)
    (ha : isDigitChar a = true) (hb : isDigitChar b = true)
    (hc : isDigitChar c = true) (hd : isDigitChar d = true) :
    yearSplit (a :: b :: c :: d :: r) = some (natOfDigits [a, b, c, d], r) := by
  simp only [yearSplit, natOfDigits_four]
  rw [if_pos ⟨ha, hb, hc, hd⟩]

/-- The month matcher on a two-digit month in range followed by anything. -/
theorem monthSplit_two (a b : Char) (r : List Char)
    (ha : isDigitChar a = true) (hb : isDigitChar b = true)
    (h1 : 1 ≤ digitVal a * 10 + digitVal b) (h2 : digitVal a * 10 + digitVal b ≤ 12) :
    monthSplit (a :: b :: r) = some (digitVal a * 10 + digitVal b, r) := by
  simp only [isDigitChar, decide_eq_true_eq] at ha hb
  simp only [digitVal] at h1 h2 ⊢
  have hcase : (a.toNat = 49 ∧ (b.toNat = 48 ∨ b.toNat = 49 ∨ b.toNat = 50)) ∨
      (a.toNat = 48 ∧ 49 ≤ b.toNat ∧ b.toNat ≤ 57) := by omega
  rcases hcase with h | h
  · simp only [monthSplit, digitVal]
    rw [if_pos h]
    simp only [Option.some.injEq, Prod.mk.injEq]
    exact ⟨by omega, trivial⟩
  · simp only [monthSplit, digitVal]
    rw [if_neg (by omega), if_pos h]
    simp only [Option.some.injEq, Prod.mk.injEq]
    exact ⟨by omega, trivial⟩

/-- The month matcher on a one-digit month followed by a hyphen: the two-digit
regex alternatives cannot match, the one-digit one does. -/
theorem monthSplit_one_dash (a : Char) (r : List Char)
    (ha : isDigitChar a = true) (h1 : 1 ≤ digitVal a) :
    monthSplit (a :: '-' :: r) = some (digitVal a, '-' :: r) := by
  simp only [isDigitChar, decide_eq_true_eq] at ha
  simp only [digitVal] at h1 ⊢
  have hdash : ('-' : Char).toNat = 45 := by decide
  simp only [monthSplit, digitVal, hdash]
  rw [if_neg (by omega), if_neg (by omega), if_pos (by omega)]

/-- The month matcher on a month part of one or two digits with value 1..12,
followed by a hyphen. -/
theorem monthSplit_full (ms : List Char) (r : List Char)
    (hlen : ms.length = 1 ∨ ms.length = 2) (hdig : ∀ x ∈ ms, isDigitChar x = true)
    (h1 : 1 ≤ natOfDigits ms) (h2 : natOfDigits ms ≤ 12) :
    monthSplit (ms ++ '-' :: r) = some (natOfDigits ms, '-' :: r) := by
  rcases hlen with h | h
  · obtain ⟨a, rfl⟩ := List.length_eq_one.mp h
    rw [natOfDigits_one] at h1 ⊢
    exact monthSplit_one_dash a r (hdig a (by simp)) h1
  · obtain ⟨a, b, rfl⟩ := List.length_eq_two.mp h
    rw [natOfDigits_two] at h1 h2 ⊢
    exact monthSplit_two a b ('-' :: r) (hdig a (by simp)) (hdig b (by simp)) h1 h2

/-- The day matcher on a two-digit day in range 1..31. -/
theorem daySplit_two (a b : Char) (r : List Char)
    (ha : isDigitChar a = true) (hb : isDigitChar b = true)
    (h1 : 1 ≤ digitVal a * 10 + digitVal b) (h2 : digitVal a * 10 + digitVal b ≤ 31) :
    daySplit (a :: b :: r) = some (digitVal a * 10 + digitVal b, r) := by
  simp only [isDigitChar, decide_eq_true_eq] at ha hb
  simp only [digitVal] at h1 h2 ⊢
  have hcase : (a.toNat = 51 ∧ (b.toNat = 48 ∨ b.toNat = 49)) ∨
      ((a.toNat = 49 ∨ a.toNat = 50) ∧ 48 ≤ b.toNat ∧ b.toNat ≤ 57) ∨
      (a.toNat = 48 ∧ 49 ≤ b.toNat ∧ b.toNat ≤ 57) := by omega
  rcases hcase with h | h | h
  · simp only [daySplit, digitVal]
    rw [if_pos h]
    simp only [Option.some.injEq, Prod.mk.injEq]
    exact ⟨by omega, trivial⟩
  · simp only [daySplit, digitVal]
    rw [if_neg (by omega), if_pos h]
  · simp only [daySplit, digitVal]
    rw [if_neg (by omega), if_neg (by omega), if_pos h]
    simp only [Option.some.injEq, Prod.mk.injEq]
    exact ⟨by omega, trivial⟩

/-- The day matcher on a final day part of one or two digits with value 1..31. -/
theorem daySplit_full (ds : List Char)
    (hlen : ds.length = 1 ∨ ds.length = 2) (hdig : ∀ x ∈ ds, isDigitChar x = true)
    (h1 : 1 ≤ natOfDigits ds) (h2 : natOfDigits ds ≤ 31) :
    daySplit ds = some (natOfDigits ds, []) := by
  rcases hlen with h | h
  · obtain ⟨a, rfl⟩ := List.length_eq_one.mp h
    have ha := hdig a (by simp)
    simp only [isDigitChar, decide_eq_true_eq] at ha
    rw [natOfDigits_one] at h1 ⊢
    simp only [digitVal] at h1 ⊢
    simp only [daySplit, digitVal]
    rw [if_pos (by omega)]
  · obtain ⟨a, b, rfl⟩ := List.length_eq_two.mp h
    rw [natOfDigits_two] at h1 h2 ⊢
    exact daySplit_two a b [] (hdig a (by simp)) (hdig b (by simp)) h1 h2

/-- Assembly of `parseDate` from the three successful regex components. -/
theorem parseDate_assemble (cs r2 ds : List Char) (y m dd : Nat)
    (e1 : yearSplit cs = some (y, '-' :: r2))
    (e2 : monthSplit r2 = some (m, '-' :: ds))
    (e3 : daySplit ds = some (dd, []))
    (hy1 : 1 ≤ y) (hd2 : dd ≤ daysInMonth y m) :
    parseDate cs = some ⟨y, m, dd⟩ := by
  simp only [parseDate, e1, e2, e3]
  simp [hy1, hd2]

/-- A month has at most 31 days. -/
theorem daysInMonth_le_31 (y m : Nat) : daysInMonth y m ≤ 31 := by
  unfold daysInMonth
  split_ifs <;> omega

/-- An ASCII digit is not the hyphen. -/
theorem digit_ne_dash {x : Char} (h : isDigitChar x = true) : x ≠ '-' := by
  intro hc
  subst hc
  revert h
  decide

/-- The hyphen is not a member of an all-digit string. -/
theorem dash_not_mem_of_digits {l : List Char} (h : ∀ x ∈ l, isDigitChar x = true) :
    '-' ∉ l := by
  intro hm
  exact digit_ne_dash (h '-' hm) rfl

/-- Inversion of `yearSplit`. -/
theorem yearSplit_inv {cs : List Char} {y : Nat} {r : List Char}
    (h : yearSplit cs = some (y, r)) :
    ∃ a b c d, cs = a :: b :: c :: d :: r ∧ (∀ x ∈ [a, b, c, d], isDigitChar x = true) ∧
      natOfDigits [a, b, c, d] = y := by
  rcases cs with _ | ⟨a, _ | ⟨b, _ | ⟨c, _ | ⟨d, rest⟩⟩⟩⟩
  · simp [yearSplit] at h
  · simp [yearSplit] at h
  · simp [yearSplit] at h
  · simp [yearSplit] at h
  · simp only [yearSplit] at h
    split_ifs at h with hdig
    · obtain ⟨ha, hb, hc, hd⟩ := hdig
      simp only [Option.some.injEq, Prod.mk.injEq] at h
      obtain ⟨hy, hr⟩ := h
      subst hr
      exact ⟨a, b, c, d, rfl, by simp [ha, hb, hc, hd], by rw [natOfDigits_four, hy]⟩

/-- Inversion of `monthSplit`. -/
theorem monthSplit_inv {cs : List Char} {m : Nat} {r : List Char}
    (h : monthSplit cs = some (m, r)) :
    ∃ ms, cs = ms ++ r ∧ (ms.length = 1 ∨ ms.length = 2) ∧
      (∀ x ∈ ms, isDigitChar x = true) ∧ natOfDigits ms = m ∧ 1 ≤ m ∧ m ≤ 12 := by
  rcases cs with _ | ⟨a, _ | ⟨b, rest⟩⟩
  · simp [monthSplit] at h
  · simp only [monthSplit] at h
    split_ifs at h with g1
    · simp only [Option.some.injEq, Prod.mk.injEq] at h
      obtain ⟨hm, hr⟩ := h
      subst hr
      simp only [digitVal] at hm
      refine ⟨[a], rfl, by simp, ?_, ?_, by omega, by omega⟩
      · intro x hx
        simp only [List.mem_singleton] at hx
        subst hx
        simp only [isDigitChar, decide_eq_true_eq]
        omega
      · rw [natOfDigits_one]
        simp only [digitVal]
        omega
  · simp only [monthSplit] at h
    split_ifs at h with g1 g2 g3
    · simp only [Option.some.injEq, Prod.mk.injEq] at h
      obtain ⟨hm, hr⟩ := h
      subst hr
      simp only [digitVal] at hm
      refine ⟨[a, b], rfl, by simp, ?_, ?_, by omega, by omega⟩
      · intro x hx
        simp only [List.mem_cons, List.mem_singleton, List.not_mem_nil, or_false] at hx
        rcases hx with hx | hx <;> subst hx <;>
          simp only [isDigitChar, decide_eq_true_eq] <;> omega
      · rw [natOfDigits_two]
        simp only [digitVal]
        omega
    · simp only [Option.some.injEq, Prod.mk.injEq] at h
      obtain ⟨hm, hr⟩ := h
      subst hr
      simp only [digitVal] at hm
      refine ⟨[a, b], rfl, by simp, ?_, ?_, by omega, by omega⟩
      · intro x hx
        simp only [List.mem_cons, List.mem_singleton, List.not_mem_nil, or_false] at hx
        rcases hx with hx | hx <;> subst hx <;>
          simp only [isDigitChar, decide_eq_true_eq] <;> omega
      · rw [natOfDigits_two]
        simp only [digitVal]
        omega
    · simp only [Option.some.injEq, Prod.mk.injEq] at h
      obtain ⟨hm, hr⟩ := h
      subst hr
      simp only [digitVal] at hm
      refine ⟨[a], rfl, by simp, ?_, ?_, by omega, by omega⟩
      · intro x hx
        simp only [List.mem_singleton] at hx
        subst hx
        simp only [isDigitChar, decide_eq_true_eq]
        omega
      · rw [natOfDigits_one]
        simp only [digitVal]
        omega

/-- Inversion of `daySplit`. -/
theorem daySplit_inv {cs : List Char} {d : Nat} {r : List Char}
    (h : daySplit cs = some (d, r)) :
    ∃ ds, cs = ds ++ r ∧ (ds.length = 1 ∨ ds.length = 2) ∧
      (∀ x ∈ ds, isDigitChar x = true) ∧ natOfDigits ds = d ∧ 1 ≤ d ∧ d ≤ 31 := by
  rcases cs with _ | ⟨a, _ | ⟨b, rest⟩⟩
  · simp [daySplit] at h
  · simp only [daySplit] at h
    split_ifs at h with g1
    · simp only [Option.some.injEq, Prod.mk.injEq] at h
      obtain ⟨hm, hr⟩ := h
      subst hr
      simp only [digitVal] at hm
      refine ⟨[a], rfl, by simp, ?_, ?_, by omega, by omega⟩
      · intro x hx
        simp only [List.mem_singleton] at hx
        subst hx
        simp only [isDigitChar, decide_eq_true_eq]
        omega
      · rw [natOfDigits_one]
        simp only [digitVal]
        omega
  · simp only [daySplit] at h
    split_ifs at h with g1 g2 g3 g4
    · simp only [Option.some.injEq, Prod.mk.injEq] at h
      obtain ⟨hm, hr⟩ := h
      subst hr
      simp only [digitVal] at hm
      refine ⟨[a, b], rfl, by simp, ?_, ?_, by omega, by omega⟩
      · intro x hx
        simp only [List.mem_cons, List.mem_singleton, List.not_mem_nil, or_false] at hx
        rcases hx with hx | hx <;> subst hx <;>
          simp only [isDigitChar, decide_eq_true_eq] <;> omega
      · rw [natOfDigits_two]
        simp only [digitVal]
        omega
    · simp only [Option.some.injEq, Prod.mk.injEq] at h
      obtain ⟨hm, hr⟩ := h
      subst hr
      simp only [digitVal] at hm
      refine ⟨[a, b], rfl, by simp, ?_, ?_, by omega, by omega⟩
      · intro x hx
        simp only [List.mem_cons, List.mem_singleton, List.not_mem_nil, or_false] at hx
        rcases hx with hx | hx <;> subst hx <;>
          simp only [isDigitChar, decide_eq_true_eq] <;> omega
      · rw [natOfDigits_two]
        simp only [digitVal]
        omega
    · simp only [Option.some.injEq, Prod.mk.injEq] at h
      obtain ⟨hm, hr⟩ := h
      subst hr
      simp only [digitVal] at hm
      refine ⟨[a, b], rfl, by simp, ?_, ?_, by omega, by omega⟩
      · intro x hx
        simp only [List.mem_cons, List.mem_singleton, List.not_mem_nil, or_false] at hx
        rcases hx with hx | hx <;> subst hx <;>
          simp only [isDigitChar, decide_eq_true_eq] <;> omega
      · rw [natOfDigits_two]
        simp only [digitVal]
        omega
    · simp only [Option.some.injEq, Prod.mk.injEq] at h
      obtain ⟨hm, hr⟩ := h
      subst hr
      simp only [digitVal] at hm
      refine ⟨[a], rfl, by simp, ?_, ?_, by omega, by omega⟩
      · intro x hx
        simp only [List.mem_singleton] at hx
        subst hx
        simp only [isDigitChar, decide_eq_true_eq]
        omega
      · rw [natOfDigits_one]
        simp only [digitVal]
        omega

/-- The function `splitDash` never returns the empty list. -/
theorem splitDash_ne_nil (cs : List Char) : splitDash cs ≠ [] := by
  cases cs with
  | nil => simp [splitDash]
  | cons c rest =>
    simp only [splitDash]
    split_ifs
    · simp
    · cases splitDash rest <;> simp

/-- Evaluation of `splitDash` on a dash-free prefix followed by a dash. -/
theorem splitDash_append (xs r : List Char) (h : '-' ∉ xs) :
    splitDash (xs ++ '-' :: r) = xs :: splitDash r := by
  induction xs with
  | nil => simp [splitDash]
  | cons c xs ih =>
    have hc : ¬(c = '-') := fun hcc => h (by simp [hcc])
    have hx : '-' ∉ xs := fun hm => h (List.mem_cons_of_mem c hm)
    simp only [List.cons_append, splitDash, List.append_eq]
    rw [if_neg hc, ih hx]

/-- Evaluation of `splitDash` on a dash-free string. -/
theorem splitDash_no_dash (xs : List Char) (h : '-' ∉ xs) : splitDash xs = [xs] := by
  induction xs with
  | nil => rfl
  | cons c xs ih =>
    have hc : ¬(c = '-') := fun hcc => h (by simp [hcc])
    have hx : '-' ∉ xs := fun hm => h (List.mem_cons_of_mem c hm)
    simp only [splitDash]
    rw [if_neg hc, ih hx]

/-- Evaluation of `splitDash` on a three-part dash-separated string. -/
theorem splitDash_three (ys ms ds : List Char)
    (h1 : '-' ∉ ys) (h2 : '-' ∉ ms) (h3 : '-' ∉ ds) :
    splitDash (ys ++ '-' :: (ms ++ '-' :: ds)) = [ys, ms, ds] := by
  rw [splitDash_append ys _ h1, splitDash_append ms _ h2, splitDash_no_dash ds h3]

/-- Joining undoes `splitDash`. -/
theorem partsJoin_splitDash (cs : List Char) : partsJoin (splitDash cs) = cs := by
  induction cs with
  | nil => rfl
  | cons c rest ih =>
    simp only [splitDash]
    split_ifs with hc
    · subst hc
      cases hsd : splitDash rest with
      | nil => exact absurd hsd (splitDash_ne_nil rest)
      | cons p ps =>
        rw [hsd] at ih
        cases ps <;> simp [partsJoin] at ih ⊢ <;> simp [ih]
    · cases hsd : splitDash rest with
      | nil => exact absurd hsd (splitDash_ne_nil rest)
      | cons p ps =>
        rw [hsd] at ih
        cases ps <;> simp [partsJoin] at ih ⊢ <;> simp [ih]

/-- When the strptime model accepts a string, the string satisfies the
three-part date rule. -/
theorem matchesActualDateRule_of_parse {cs : List Char} {dt : Date}
    (hp : parseDate cs = some dt) : matchesActualDateRule cs = true := by
  cases hy : yearSplit cs with
  | none => simp [parseDate, hy] at hp
  | some p =>
    obtain ⟨y, r1⟩ := p
    cases r1 with
    | nil => simp [parseDate, hy] at hp
    | cons c1 r2 =>
      by_cases hc1 : c1 = '-'
      · subst hc1
        cases hm : monthSplit r2 with
        | none => simp [parseDate, hy, hm] at hp
        | some q =>
          obtain ⟨m, r3⟩ := q
          cases r3 with
          | nil => simp [parseDate, hy, hm] at hp
          | cons c2 r4 =>
            by_cases hc2 : c2 = '-'
            · subst hc2
              cases hd : daySplit r4 with
              | none => simp [parseDate, hy, hm, hd] at hp
              | some w =>
                obtain ⟨dd, r5⟩ := w
                by_cases hfin : r5 = [] ∧ 1 ≤ y ∧ dd ≤ daysInMonth y m
                · obtain ⟨hr5, hy1, hdd⟩ := hfin
                  subst hr5
                  obtain ⟨a, b, c, d, hcs, hydig, hyval⟩ := yearSplit_inv hy
                  obtain ⟨ms, hr2, hmlen, hmdig, hmval, hm1, hm2⟩ := monthSplit_inv hm
                  obtain ⟨ds, hr4, hdlen, hddig, hdval, hd1, hd31⟩ := daySplit_inv hd
                  rw [List.append_nil] at hr4
                  rw [hr4] at hr2
                  rw [hr2] at hcs
                  subst hcs
                  have hsplit : splitDash
                      (a :: b :: c :: d :: '-' :: (ms ++ '-' :: ds)) =
                      [[a, b, c, d], ms, ds] :=
                    splitDash_three [a, b, c, d] ms ds
                      (dash_not_mem_of_digits (by simpa using hydig))
                      (dash_not_mem_of_digits hmdig)
                      (dash_not_mem_of_digits hddig)
                  simp only [matchesActualDateRule, hsplit]
                  simp only [Bool.and_eq_true, Bool.or_eq_true, decide_eq_true_eq,
                    List.all_eq_true, hyval, hmval, hdval]
                  and_intros
                  all_goals first
                    | exact ⟨hydig a (by simp), hydig b (by simp),
                        hydig c (by simp), hydig d (by simp)⟩
                    | exact hydig
                    | exact hmlen
                    | exact hmdig
                    | exact hdlen
                    | exact hddig
                    | exact hdd
                    | omega
                    | (simp
                       done)
                · simp [parseDate, hy, hm, hd, hfin] at hp
            · simp [parseDate, hy, hm, hc2] at hp
      · simp [parseDate, hy, hc1] at hp

/-- When a string satisfies the three-part date rule, the strptime model
accepts it. -/
theorem parse_isSome_of_rule {cs : List Char}
    (h : matchesActualDateRule cs = true) : (parseDate cs).isSome = true := by
  unfold matchesActualDateRule at h
  rcases hsd : splitDash cs with _ | ⟨ys, _ | ⟨ms, _ | ⟨ds, _ | ⟨e, ts⟩⟩⟩⟩ <;>
    rw [hsd] at h
  · simp at h
  · simp at h
  · simp at h
  case cons.cons.cons.nil =>
    simp only [Bool.and_eq_true, Bool.or_eq_true, decide_eq_true_eq,
      List.all_eq_true] at h
    obtain ⟨⟨⟨⟨⟨⟨⟨⟨⟨⟨hlen4, hydig⟩, hmlen⟩, hmdig⟩, hdlen⟩, hddig⟩, hy1⟩,
      hm1⟩, hm2⟩, hd1⟩, hdd⟩ := h
    have hcs : cs = ys ++ '-' :: (ms ++ '-' :: ds) := by
      have hj := partsJoin_splitDash cs
      rw [hsd] at hj
      simpa [partsJoin] using hj.symm
    rcases ys with _ | ⟨a, _ | ⟨b, _ | ⟨c, _ | ⟨d, _ | ⟨x, t⟩⟩⟩⟩⟩ <;>
      simp only [List.length_cons, List.length_nil] at hlen4 <;> try omega
    have e1 : yearSplit (a :: b :: c :: d :: '-' :: (ms ++ '-' :: ds)) =
        some (natOfDigits [a, b, c, d], '-' :: (ms ++ '-' :: ds)) :=
      yearSplit_eq a b c d _ (hydig a (by simp)) (hydig b (by simp))
        (hydig c (by simp)) (hydig d (by simp))
    have e2 : monthSplit (ms ++ '-' :: ds) = some (natOfDigits ms, '-' :: ds) :=
      monthSplit_full ms ds hmlen hmdig hm1 hm2
    have e3 : daySplit ds = some (natOfDigits ds, []) :=
      daySplit_full ds hdlen hddig hd1 (hdd.trans (daysInMonth_le_31 _ _))
    rw [hcs]
    show (parseDate (a :: b :: c :: d :: '-' :: (ms ++ '-' :: ds))).isSome = true
    rw [parseDate_assemble _ _ _ _ _ _ e1 e2 e3 hy1 hdd]
    rfl
  · simp at h

/-- The strptime model accepts exactly the strings satisfying the three-part
date rule. -/
theorem parseDate_isSome_iff (cs : List Char) :
    (parseDate cs).isSome = matchesActualDateRule cs := by
  cases hp : parseDate cs with
  | some dt =>
    simp only [Option.isSome_some]
    exact (matchesActualDateRule_of_parse hp).symm
  | none =>
    simp only [Option.isSome_none]
    cases hr : matchesActualDateRule cs with
    | false => rfl
    | true =>
      have hs := parse_isSome_of_rule hr
      rw [hp] at hs
      cases hs

/-- Claim C5 (counterexample): the date field `2024-02-30` matches the strict
four-two-two digit pattern yet the parser skips the line, and the date field
`2024-1-5` does not match the strict pattern yet the parser produces a
record; both lines split on the tab into exactly two fields. -/
theorem c5_counterexample :
    splitTab "x\t2024-02-30".toList = ["x".toList, "2024-02-30".toList] ∧
    strictDatePat "2024-02-30".toList = true ∧
    parseLine "x\t2024-02-30".toList = none ∧
    splitTab "x\t2024-1-5".toList = ["x".toList, "2024-1-5".toList] ∧
    strictDatePat "2024-1-5".toList = false ∧
    parseLine "x\t2024-1-5".toList = some ("x".toList, ⟨2024, 1, 5⟩) := by
  decide

/-- Claim C5 (amended): a feed line that splits on the tab into exactly two
fields yields a Record iff its date field consists of a four-digit year part,
a one-or-two-digit month part and a one-or-two-digit day part separated by
hyphens, all digits, denoting a valid calendar date (year at least 1, month
1..12, day between 1 and the number of days of that month); otherwise the
line is skipped with a printed warning. -/
theorem c5_two_field_line_rule (line dm ds : List Char)
    (h : splitTab line = [dm, ds]) :
    (parseLine line).isSome = matchesActualDateRule ds := by
  rw [← parseDate_isSome_iff]
  simp only [parseLine, h]
  cases hp : parseDate ds <;> simp [hp]

/-- Witness for the amended C5 at a concrete two-field line. -/
theorem c5_two_field_line_rule_witness :
    splitTab "x\t2024-01-05".toList = ["x".toList, "2024-01-05".toList] ∧
    (parseLine "x\t2024-01-05".toList).isSome =
      matchesActualDateRule "2024-01-05".toList :=
  ⟨by decide, c5_two_field_line_rule _ ("x".toList) ("2024-01-05".toList) (by decide)⟩

/-- The year matcher reads back a zero-padded four-digit year. -/
theorem yearSplit_pad4 (y : Nat) (hy : y ≤ 9999) (r : List Char) :
    yearSplit (pad4 y ++ r) = some (y, r) := by
  show yearSplit (digitChar (y / 1000) :: digitChar (y / 100 % 10) ::
    digitChar (y / 10 % 10) :: digitChar (y % 10) :: r) = some (y, r)
  rw [yearSplit_eq _ _ _ _ _ (digitChar_isDigit _) (digitChar_isDigit _)
    (digitChar_isDigit _) (digitChar_isDigit _)]
  rw [natOfDigits_four, digitVal_digitChar _ (by omega), digitVal_digitChar _ (by omega),
    digitVal_digitChar _ (by omega), digitVal_digitChar _ (by omega)]
  simp only [Option.some.injEq, Prod.mk.injEq]
  exact ⟨by omega, trivial⟩

/-- The month matcher reads back a zero-padded two-digit month. -/
theorem monthSplit_pad2 (m : Nat) (h1 : 1 ≤ m) (h2 : m ≤ 12) (r : List Char) :
    monthSplit (pad2 m ++ '-' :: r) = some (m, '-' :: r) := by
  have ha := digitVal_digitChar (m / 10) (by omega)
  have hb := digitVal_digitChar (m % 10) (by omega)
  have e := monthSplit_two (digitChar (m / 10)) (digitChar (m % 10)) ('-' :: r)
    (digitChar_isDigit _) (digitChar_isDigit _)
    (by rw [ha, hb]; omega) (by rw [ha, hb]; omega)
  rw [ha, hb] at e
  have hm : m / 10 * 10 + m % 10 = m := by omega
  rw [hm] at e
  exact e

/-- The day matcher reads back a final zero-padded two-digit day. -/
theorem daySplit_pad2 (dd : Nat) (h1 : 1 ≤ dd) (h2 : dd ≤ 31) :
    daySplit (pad2 dd) = some (dd, []) := by
  have ha := digitVal_digitChar (dd / 10) (by omega)
  have hb := digitVal_digitChar (dd % 10) (by omega)
  have e := daySplit_two (digitChar (dd / 10)) (digitChar (dd % 10)) []
    (digitChar_isDigit _) (digitChar_isDigit _)
    (by rw [ha, hb]; omega) (by rw [ha, hb]; omega)
  rw [ha, hb] at e
  have hm : dd / 10 * 10 + dd % 10 = dd := by omega
  rw [hm] at e
  exact e

/-- Parsing inverts rendering on valid Python dates. -/
theorem parseDate_dateToChars (d : Date) (h : validDateB d = true) :
    parseDate (dateToChars d) = some d := by
  simp only [validDateB, decide_eq_true_eq] at h
  obtain ⟨h1, h2, h3, h4, h5, h6⟩ := h
  have h31 := daysInMonth_le_31 d.year d.month
  have e1 : yearSplit (dateToChars d) =
      some (d.year, '-' :: (pad2 d.month ++ '-' :: pad2 d.day)) := by
    show yearSplit (pad4 d.year ++ ('-' :: (pad2 d.month ++ '-' :: pad2 d.day))) = _
    exact yearSplit_pad4 d.year h2 _
  have e2 := monthSplit_pad2 d.month h3 h4 (pad2 d.day)
  have e3 := daySplit_pad2 d.day h5 (by omega)
  exact parseDate_assemble (dateToChars d) (pad2 d.month ++ '-' :: pad2 d.day)
    (pad2 d.day) d.year d.month d.day e1 e2 e3 h1 h6

/-- Every character of a rendered date is a digit or the hyphen. -/
theorem dateToChars_chars (d : Date) :
    ∀ x ∈ dateToChars d, isDigitChar x = true ∨ x = '-' := by
  intro x hx
  simp only [dateToChars, pad4, pad2, List.cons_append, List.nil_append,
    List.mem_cons, List.not_mem_nil, or_false] at hx
  rcases hx with h | h | h | h | h | h | h | h | h | h <;> subst h <;>
    first
      | exact Or.inl (digitChar_isDigit _)
      | exact Or.inr rfl

/-- The comma does not occur in a rendered date. -/
theorem comma_not_mem_dateToChars (d : Date) : ',' ∉ dateToChars d := by
  intro hm
  rcases dateToChars_chars d ',' hm with h | h
  · revert h
    decide
  · cases h

/-- Rendered dates contain no line breaks. -/
theorem no_break_mem_dateToChars (d : Date) :
    ∀ x ∈ dateToChars d, x ≠ '\n' ∧ x ≠ '\r' := by
  intro x hx
  rcases dateToChars_chars d x hx with h | h
  · exact ⟨(digit_char_facts x h).2.2.2.1, (digit_char_facts x h).2.2.2.2.1⟩
  · subst h
    exact ⟨by decide, by decide⟩

/-- The last character of a rendered date is a digit. -/
theorem dateToChars_getLast (d : Date) :
    (dateToChars d).getLast? = some (digitChar (d.day % 10)) := by
  simp [dateToChars, pad4, pad2]

/-- Stripping is the identity when neither end is whitespace. -/
theorem pyStrip_eq_self {cs : List Char} (hne : cs ≠ [])
    (hhead : ∀ c, cs.head? = some c → pyIsSpace c = false)
    (hlast : ∀ c, cs.getLast? = some c → pyIsSpace c = false) :
    pyStrip cs = cs := by
  have hdrop : cs.dropWhile pyIsSpace = cs := by
    cases cs with
    | nil => rfl
    | cons c rest =>
      rw [List.dropWhile_cons, hhead c rfl]
      simp
  rw [pyStrip, hdrop]
  cases hr : cs.reverse with
  | nil =>
    exact absurd (by simpa using congrArg List.reverse hr) hne
  | cons d tail =>
    have hdlast : cs.getLast? = some d := by
      rw [← List.head?_reverse, hr]
      rfl
    rw [List.dropWhile_cons, hlast d hdlast]
    simp only [Bool.false_eq_true, if_false]
    rw [← hr, List.reverse_reverse]

/-- A comma-free string contains no `", "` separator. -/
theorem hasSep_false_of_no_comma {cs : List Char} (h : ',' ∉ cs) :
    hasSep cs = false := by
  induction cs with
  | nil => rfl
  | cons c rest ih =>
    cases rest with
    | nil => rfl
    | cons c2 rest2 =>
      have hc : ¬(c = ',') := fun hc => h (by simp [hc])
      have ht : ',' ∉ c2 :: rest2 := fun hm => h (List.mem_cons_of_mem c hm)
      simp only [hasSep, Bool.or_eq_false_iff, Bool.and_eq_false_iff,
        decide_eq_false_iff_not]
      exact ⟨Or.inl hc, ih ht⟩

/-- Splitting a separator-free string on the separator is the identity. -/
theorem splitSep_no_sep {cs : List Char} (h : hasSep cs = false) :
    splitSep cs = [cs] := by
  induction cs with
  | nil => rfl
  | cons c rest ih =>
    cases rest with
    | nil => rfl
    | cons c2 rest2 =>
      simp only [hasSep, Bool.or_eq_false_iff, Bool.and_eq_false_iff,
        decide_eq_false_iff_not] at h
      obtain ⟨h1, h2⟩ := h
      simp only [splitSep]
      rw [if_neg ?_]
      · rw [ih h2]
      · rcases h1 with h1 | h1
        · exact fun hc => h1 hc.1
        · exact fun hc => h1 hc.2

/-- Splitting a separator-free prefix, the separator, and a comma-free
tail yields exactly the two fields. -/
theorem splitSep_append {dom ds : List Char} (hdom : hasSep dom = false)
    (hds : ',' ∉ ds) : splitSep (dom ++ ',' :: ' ' :: ds) = [dom, ds] := by
  induction dom with
  | nil =>
    simp only [List.nil_append, splitSep]
    rw [if_pos (by simp), splitSep_no_sep (hasSep_false_of_no_comma hds)]
  | cons c dom2 ih =>
    cases dom2 with
    | nil =>
      simp only [List.cons_append, List.nil_append, splitSep]
      rw [if_neg (by intro hc; exact (by decide : ¬((',' : Char) = ' ')) hc.2)]
      rw [if_pos (by simp), splitSep_no_sep (hasSep_false_of_no_comma hds)]
    | cons c2 dom3 =>
      simp only [hasSep, Bool.or_eq_false_iff, Bool.and_eq_false_iff,
        decide_eq_false_iff_not] at hdom
      obtain ⟨h1, h2⟩ := hdom
      simp only [List.cons_append, splitSep, List.append_eq]
      rw [if_neg ?_]
      · have ihh := ih h2
        simp only [List.cons_append] at ihh
        rw [ihh]
      · rcases h1 with h1 | h1
        · exact fun hc => h1 hc.1
        · exact fun hc => h1 hc.2

/-- Unfolding of `lineSplit` on a character that is not a line break. -/
theorem lineSplit_cons_clean (c : Char) (w : List Char) (h1 : c ≠ '\n') (h2 : c ≠ '\r') :
    lineSplit (c :: w) =
      (match lineSplit w with
       | t :: ts => (c :: t) :: ts
       | [] => [[c]]) := by
  rw [lineSplit.eq_def]
  split
  · rename_i heq
    cases heq
  · rename_i rest heq
    injection heq with ha hb
    exact absurd ha h2
  · rename_i rest heq
    injection heq with ha hb
    exact absurd ha h2
  · rename_i rest heq
    injection heq with ha hb
    exact absurd ha h1
  · rename_i c0 rest hne1 hne2 hne3 heq
    injection heq with ha hb
    subst ha
    subst hb
    rfl

/-- Splitting a break-free line followed by a newline and the rest. -/
theorem lineSplit_clean_append (xs r : List Char)
    (h : ∀ c ∈ xs, c ≠ '\n' ∧ c ≠ '\r') :
    lineSplit (xs ++ '\n' :: r) = xs :: lineSplit r := by
  induction xs with
  | nil => rfl
  | cons c xs2 ih =>
    obtain ⟨hc1, hc2⟩ := h c (by simp)
    have ihh := ih (fun x hx => h x (List.mem_cons_of_mem c hx))
    rw [List.cons_append, lineSplit_cons_clean c _ hc1 hc2, ihh]

/-- Splitting the saved rows block: one line per row plus a trailing empty
fragment. -/
theorem rowsJoin_lineSplit (rows : List (List Char))
    (h : ∀ r ∈ rows, ∀ c ∈ r, c ≠ '\n' ∧ c ≠ '\r') :
    lineSplit (rowsJoin rows) = rows ++ [[]] := by
  induction rows with
  | nil => rfl
  | cons r rest ih =>
    rw [rowsJoin, lineSplit_clean_append r _ (h r (by simp)),
      ih (fun q hq => h q (List.mem_cons_of_mem r hq))]
    rfl

/-- The lines of a saved cache file are the header followed by the rows. -/
theorem fileLines_save (rows : List (List Char))
    (h : ∀ r ∈ rows, ∀ c ∈ r, c ≠ '\n' ∧ c ≠ '\r') :
    fileLines (save_file_content headerChars rows) = headerChars :: rows := by
  have hl : lineSplit (save_file_content headerChars rows) =
      (headerChars :: rows) ++ [[]] := by
    rw [save_file_content, lineSplit_clean_append headerChars _ (by decide),
      rowsJoin_lineSplit rows h]
    rfl
  rw [fileLines, if_neg (by simp [save_file_content, headerChars])]
  simp only [hl, List.getLast?_concat, List.dropLast_concat, if_pos]

/-- A cache row built from a good domain and a valid date loads back as the
original record. -/
theorem loadLine_cache_row (dm : Domain) (d : Date)
    (hgd : goodDomainB dm = true) (hvd : validDateB d = true) :
    loadLine (dm ++ ',' :: ' ' :: dateToChars d) = some (dm, d) := by
  simp only [goodDomainB, Bool.and_eq_true, Bool.not_eq_true'] at hgd
  obtain ⟨⟨hsep, hbreak⟩, hhead⟩ := hgd
  have hstrip : pyStrip (dm ++ ',' :: ' ' :: dateToChars d) =
      dm ++ ',' :: ' ' :: dateToChars d := by
    apply pyStrip_eq_self (by simp)
    · intro c hc
      cases dm with
      | nil =>
        simp only [List.nil_append, List.head?_cons, Option.some.injEq] at hc
        subst hc
        decide
      | cons c0 rest =>
        simp only [List.cons_append, List.head?_cons, Option.some.injEq] at hc
        subst hc
        simpa using hhead
    · intro c hc
      have hl : (dm ++ ',' :: ' ' :: dateToChars d).getLast? =
          some (digitChar (d.day % 10)) := by
        rw [show dm ++ ',' :: ' ' :: dateToChars d =
          (dm ++ [',', ' ']) ++ dateToChars d from by simp]
        rw [List.getLast?_append, dateToChars_getLast]
        rfl
      rw [hl, Option.some.injEq] at hc
      subst hc
      exact (digit_char_facts _ (digitChar_isDigit _)).1
  simp only [loadLine, hstrip, splitSep_append hsep (comma_not_mem_dateToChars d),
    parseDate_dateToChars d hvd]

/-- Loading the saved rows recovers the saved records. -/
theorem cache_rows_filterMap (entries : List Record)
    (hgood : ∀ e ∈ entries, goodDomainB e.1 = true ∧ validDateB e.2 = true) :
    (cache_rows entries).filterMap loadLine = entries := by
  induction entries with
  | nil => rfl
  | cons e rest ih =>
    have he := hgood e (by simp)
    simp only [cache_rows, List.map_cons, List.filterMap_cons,
      loadLine_cache_row e.1 e.2 he.1 he.2]
    exact congrArg (List.cons e) (ih (fun q hq => hgood q (List.mem_cons_of_mem e hq)))

/-- Claim C1 (amended): saving a sorted sequence of records whose domains
contain no line break, no `", "` substring and no leading whitespace, and
whose dates are valid Python dates, and then reloading the file, yields the
original sequence. -/
theorem c1_roundtrip (entries : List Record)
    (hsorted : sortedByDateB entries = true)
    (hgood : ∀ e ∈ entries, goodDomainB e.1 = true ∧ validDateB e.2 = true) :
    load_sorted_entries (save_file_content headerChars (cache_rows entries)) =
      .ok entries := by
  have hclean : ∀ r ∈ cache_rows entries, ∀ c ∈ r, c ≠ '\n' ∧ c ≠ '\r' := by
    intro r hr c hc
    simp only [cache_rows, List.mem_map] at hr
    obtain ⟨e, he, rfl⟩ := hr
    rcases List.mem_append.mp hc with h | h
    · have hg := (hgood e he).1
      simp only [goodDomainB, Bool.and_eq_true, Bool.not_eq_true'] at hg
      obtain ⟨⟨_, hbreak⟩, _⟩ := hg
      have hb := (List.any_eq_false.mp hbreak) c h
      simp only [Bool.or_eq_true, decide_eq_true_eq, not_or] at hb
      exact hb
    · simp only [List.mem_cons] at h
      rcases h with h | h | h
      · subst h
        exact ⟨by decide, by decide⟩
      · subst h
        exact ⟨by decide, by decide⟩
      · exact no_break_mem_dateToChars e.2 c h
  rw [load_sorted_entries, fileLines_save (cache_rows entries) hclean]
  simp only []
  rw [cache_rows_filterMap entries hgood]

/-- Witness for the amended C1 at a concrete sorted two-record sequence. -/
theorem c1_roundtrip_witness :
    sortedByDateB [("foo.se".toList, ⟨2024, 1, 5⟩),
      ("example.se".toList, ⟨2024, 1, 10⟩)] = true ∧
    (∀ e ∈ [("foo.se".toList, ⟨2024, 1, 5⟩),
      ("example.se".toList, (⟨2024, 1, 10⟩ : Date))],
        goodDomainB e.1 = true ∧ validDateB e.2 = true) ∧
    load_sorted_entries (save_file_content headerChars
      (cache_rows [("foo.se".toList, ⟨2024, 1, 5⟩),
        ("example.se".toList, ⟨2024, 1, 10⟩)])) =
      .ok [("foo.se".toList, ⟨2024, 1, 5⟩), ("example.se".toList, ⟨2024, 1, 10⟩)] :=
  ⟨by decide, by decide, c1_roundtrip _ (by decide) (by decide)⟩

/-- Claim C1 (counterexample): a sorted one-record sequence whose domain
contains `", "` does not survive the save/load round trip: its row splits
into three fields on load and is skipped, so the result is the empty list. -/
theorem c1_counterexample :
    sortedByDateB [("a, b".toList, ⟨2024, 1, 5⟩)] = true ∧
    load_sorted_entries (save_file_content headerChars
      (cache_rows [("a, b".toList, ⟨2024, 1, 5⟩)])) ≠
      .ok [("a, b".toList, ⟨2024, 1, 5⟩)] := by
  decide

/-- Claim C6 (counterexample): a cache file holding only the header line
loads as an empty dataset, yet the run does not terminate with a fatal
error: it continues to the filter step and prints the no-domains message. -/
theorem c6_counterexample :
    load_sorted_entries ("domain, date\n".toList) = .ok [] ∧
    (main_run (some ("domain, date\n".toList)) none (some ("2024-01-05".toList))
      false none (ApiOutcome.success [])).exitMsg = none ∧
    (main_run (some ("domain, date\n".toList)) none (some ("2024-01-05".toList))
      false none (ApiOutcome.success [])).raised = false ∧
    (main_run (some ("domain, date\n".toList)) none (some ("2024-01-05".toList))
      false none (ApiOutcome.success [])).printedNoDomains = true := by
  decide

/-- Claim C6 (amended): on the fetch-and-parse path an empty parsed dataset
terminates the run with the fatal no-valid-entries message before any
filtering; on the load-from-cache path an empty loaded dataset is not fatal:
with a valid target date the run continues to the filter step and reports
zero available domains. -/
theorem c6_empty_dataset (download : List (List Char)) (dateArg : Option (List Char))
    (chatFlag : Bool) (apiKey : Option (List Char)) (call : ApiOutcome)
    (content : List Char) (ds : List Char) (target : Date)
    (hparse : parse_file_content download = [])
    (hload : load_sorted_entries content = .ok [])
    (hdate : parseDate ds = some target) :
    main_run none (some download) dateArg chatFlag apiKey call =
      ⟨some noValidEntriesMsg, false, false, none, false, false, false, none⟩ ∧
    main_run (some content) none (some ds) chatFlag apiKey call =
      ⟨none, false, false, none, true, false, false, none⟩ := by
  constructor
  · simp [main_run, download_and_process_data, hparse]
  · simp [main_run, hload, main_filter_phase, hdate, get_available_domains]

/-- Witness for the amended C6 at concrete inputs. -/
theorem c6_empty_dataset_witness :
    parse_file_content [['x']] = [] ∧
    load_sorted_entries ("domain, date\n".toList) = .ok [] ∧
    parseDate ("2024-01-05".toList) = some ⟨2024, 1, 5⟩ ∧
    (main_run none (some [['x']]) none true none (ApiOutcome.success []) =
      ⟨some noValidEntriesMsg, false, false, none, false, false, false, none⟩ ∧
    main_run (some ("domain, date\n".toList)) none (some ("2024-01-05".toList))
      true none (ApiOutcome.success []) =
      ⟨none, false, false, none, true, false, false, none⟩) :=
  ⟨by decide, by decide, by decide,
    c6_empty_dataset [['x']] none true none (ApiOutcome.success [])
      ("domain, date\n".toList) ("2024-01-05".toList) ⟨2024, 1, 5⟩
      (by decide) (by decide) (by decide)⟩

/-- Claim C8 (counterexample): with no API key configured, an advisory call
on a non-empty domain list does not return an error string: the client
constructor raises an `OpenAIError` outside the try block, so the exception
escapes the advisory operation (terminating the run). -/
theorem c8_counterexample :
    analyze_domains_with_chatgpt ["a".toList] none
      (ApiOutcome.openaiError ("quota".toList)) = .raised apiKeyErrMsg ∧
    analyze_domains_with_chatgpt ["a".toList] none
      (ApiOutcome.openaiError ("quota".toList)) ≠
      .returned ("OpenAI API Error: ".toList ++ "quota".toList) true := by
  decide

/-- Claim C8 (amended): for a non-empty domain list with an API key
configured, every failure of the chat-completion call itself — an
`OpenAIError` (authentication, quota, transport) or any unexpected
exception — is caught and returned as a human-readable error string, shown
in place of an analysis, and is not fatal; a missing API key instead raises
in the client constructor before the try block and is fatal to the run. -/
theorem c8_advisory_errors (domains : List Domain) (key : List Char) (e : List Char)
    (h : domains ≠ []) :
    analyze_domains_with_chatgpt domains (some key) (ApiOutcome.openaiError e) =
      .returned ("OpenAI API Error: ".toList ++ e) true ∧
    analyze_domains_with_chatgpt domains (some key) (ApiOutcome.otherError e) =
      .returned ("Unexpected Error: ".toList ++ e) true ∧
    analyze_domains_with_chatgpt domains none (ApiOutcome.openaiError e) =
      .raised apiKeyErrMsg := by
  refine ⟨?_, ?_, ?_⟩ <;> simp [analyze_domains_with_chatgpt, h]

/-- Witness for the amended C8 at concrete inputs. -/
theorem c8_advisory_errors_witness :
    (["a".toList] : List Domain) ≠ [] ∧
    (analyze_domains_with_chatgpt ["a".toList] (some ("k".toList))
        (ApiOutcome.openaiError ("q".toList)) =
      .returned ("OpenAI API Error: ".toList ++ "q".toList) true ∧
    analyze_domains_with_chatgpt ["a".toList] (some ("k".toList))
        (ApiOutcome.otherError ("q".toList)) =
      .returned ("Unexpected Error: ".toList ++ "q".toList) true ∧
    analyze_domains_with_chatgpt ["a".toList] none
        (ApiOutcome.openaiError ("q".toList)) = .raised apiKeyErrMsg) :=
  ⟨by decide, c8_advisory_errors ["a".toList] ("k".toList) ("q".toList) (by decide)⟩

/-- Claim C9: whenever the filter yields no domain for the target date — on
either data path — the run prints the no-domains message, writes no dated
output file and skips the advisory step entirely, even when the advisory
flag is set; the run is not fatal. -/
theorem c9_no_match_skips_advisory (cache : Option (List Char))
    (download : Option (List (List Char))) (entries : List Record)
    (ds : List Char) (target : Date) (chatFlag : Bool)
    (apiKey : Option (List Char)) (call : ApiOutcome)
    (hfetch : cache = none → download_and_process_data download = .ok entries)
    (hload : ∀ c, cache = some c → load_sorted_entries c = .ok entries)
    (hdate : parseDate ds = some target)
    (hmatch : get_available_domains entries target = []) :
    ∃ saved, main_run cache download (some ds) chatFlag apiKey call =
      ⟨none, false, saved, none, true, false, false, none⟩ := by
  cases cache with
  | none =>
    exact ⟨true, by simp [main_run, hfetch rfl, main_filter_phase, hdate, hmatch]⟩
  | some c =>
    exact ⟨false, by simp [main_run, hload c rfl, main_filter_phase, hdate, hmatch]⟩

/-- Witness for C9 at a concrete cache file and non-matching target date. -/
theorem c9_no_match_skips_advisory_witness :
    load_sorted_entries ("domain, date\nfoo.se, 2024-01-05\n".toList) =
      .ok [("foo.se".toList, ⟨2024, 1, 5⟩)] ∧
    parseDate ("2024-01-01".toList) = some ⟨2024, 1, 1⟩ ∧
    get_available_domains [("foo.se".toList, ⟨2024, 1, 5⟩)] ⟨2024, 1, 1⟩ = [] ∧
    (∃ saved, main_run (some ("domain, date\nfoo.se, 2024-01-05\n".toList)) none
      (some ("2024-01-01".toList)) true (some ("k".toList))
      (ApiOutcome.success ("x".toList)) =
      ⟨none, false, saved, none, true, false, false, none⟩) :=
  ⟨by decide, by decide, by decide,
    c9_no_match_skips_advisory (some ("domain, date\nfoo.se, 2024-01-05\n".toList))
      none [("foo.se".toList, ⟨2024, 1, 5⟩)] ("2024-01-01".toList) ⟨2024, 1, 1⟩
      true (some ("k".toList)) (ApiOutcome.success ("x".toList))
      (fun h => nomatch h) (fun c hc => by cases hc; decide)
      (by decide) (by decide)⟩
